import Mathlib

/-!
Verification of the fuhl interactive fuzzy URL picker (src/main.rs).

Strings of the Rust program are modelled as lists of characters; the
single `main` function is split into its phases: building the candidate
store from the history rows, the per-frame matcher producing the ranked
view, the selection clamp, and the key dispatcher of the render/event
loop together with the terminal-restore bookkeeping on each exit path.
-/

namespace Fuhl

/-- A Rust `String`, modelled as its list of characters. -/
abbrev Str := List Char

/-- One row of the `urls` table (struct `Url` in main.rs). -/
structure Url where
  id : Int
  url : Str
  title : Str
  visit_count : Int
  typed_count : Int
  last_visit_time : Int
  hidden : Int

/-- Rust `str::trim`: leading and trailing whitespace removed. -/
def trim (s : Str) : Str :=
  ((s.dropWhile Char.isWhitespace).reverse.dropWhile Char.isWhitespace).reverse

/-- The separator `" - "` between title and url in a display string. -/
def sep : Str := [' ', '-', ' ']

/-- Display string of one row (main.rs lines 81-90): the url alone when
the trimmed title is empty, otherwise `"<trimmed title> - <url>"`. -/
def display (u : Url) : Str :=
  if trim u.title = [] then u.url else trim u.title ++ sep ++ u.url

/-- Rust `query.trim().is_empty()`: every character is whitespace. -/
def isWsStr (q : Str) : Bool := q.all Char.isWhitespace

/-- Case-insensitive ordered (not necessarily contiguous) subsequence
test: the query's characters occur in order inside the candidate. -/
def subseqCI : Str → Str → Bool
  | [], _ => true
  | _ :: _, [] => false
  | a :: as, b :: bs => if a.toLower == b.toLower then subseqCI as bs else subseqCI (a :: as) bs

/-- Lower-cased characters of a string. -/
def lower (s : Str) : Str := s.map Char.toLower

/-- Case-insensitive prefix test. -/
def prefixCI (q s : Str) : Bool := (lower s).take q.length == lower q

/-- Case-insensitive contiguous substring test. -/
def substrCI (q s : Str) : Bool :=
  (List.range (s.length + 1)).any fun i => ((lower s).drop i).take q.length == lower q

/-- Modelled from the spec: the numeric score a matching candidate
receives from the fuzzy matcher (the `nucleo_matcher` crate, whose code
is not part of this repository). The spec leaves the exact scheme an
implementation detail and only asks that contiguous and prefix matches
be rewarded, which this model does. -/
def score (q s : Str) : Nat :=
  (if prefixCI q s then 2 else 0) + (if substrCI q s then 1 else 0)

/-- Modelled from the spec: the matching phase of
`Pattern::match_list` (nucleo_matcher, not part of this repository) —
each candidate, tagged with its original index, is kept exactly when
the query occurs in it as a case-insensitive ordered subsequence, and
is paired with its score. -/
def matchList (q : Str) (cands : List Str) : List ((Nat × Str) × Nat) :=
  (cands.enum.filter fun p => subseqCI q p.2).map fun p => (p, score q p.2)

/-- Modelled from the spec: the ranking order of the matcher's result —
score descending, ties broken by ascending original index. -/
def rank (a b : (Nat × Str) × Nat) : Prop :=
  b.2 < a.2 ∨ (a.2 = b.2 ∧ a.1.1 ≤ b.1.1)

instance : DecidableRel rank := fun a b => by unfold rank; infer_instance

instance : IsTotal ((Nat × Str) × Nat) rank := by
  constructor
  intro a b
  rcases Nat.lt_trichotomy a.2 b.2 with h | h | h
  · exact Or.inr (Or.inl h)
  · rcases Nat.le_total a.1.1 b.1.1 with h' | h'
    · exact Or.inl (Or.inr ⟨h, h'⟩)
    · exact Or.inr (Or.inr ⟨h.symm, h'⟩)
  · exact Or.inl (Or.inl h)

instance : IsTrans ((Nat × Str) × Nat) rank := by
  constructor
  intro a b c hab hbc
  rcases hab with h1 | ⟨e1, i1⟩
  · rcases hbc with h2 | ⟨e2, _⟩
    · exact Or.inl (h2.trans h1)
    · exact Or.inl (e2 ▸ h1)
  · rcases hbc with h2 | ⟨e2, i2⟩
    · exact Or.inl (e1 ▸ h2)
    · exact Or.inr ⟨e1.trans e2, i1.trans i2⟩

/-- The scored matches sorted by descending score with ties by ascending
original index, truncated to the top 50 (the `drain(..min(len, 50))` of
main.rs lines 122-125). -/
def rankedPairs (q : Str) (cands : List Str) : List ((Nat × Str) × Nat) :=
  (List.insertionSort rank (matchList q cands)).take 50

/-- `items_for_display` of one frame (main.rs lines 112-126): the first
50 candidates verbatim when the query is empty or all-whitespace,
otherwise the ranked, truncated matches. -/
def itemsForDisplay (q : Str) (cands : List Str) : List Str :=
  if isWsStr q then cands.take 50
  else (rankedPairs q cands).map fun p => p.1.2

/-- The mutable UI state of the loop: the query text and the selection
cursor (`query` and `selected` in main.rs). -/
structure SessionState where
  query : Str
  selected : Nat
deriving DecidableEq

/-- The bounds clamp run at the top of every iteration (main.rs lines
129-136): selection is 0 on an empty view and otherwise forced below
the view's length. -/
def clampSel (view : List Str) (sel : Nat) : Nat :=
  if view.length = 0 then 0
  else if view.length ≤ sel then view.length - 1
  else sel

/-- Whether `" - "` occurs in `s` starting at position `i`. -/
def sepAt (s : Str) (i : Nat) : Bool := (s.drop i).take 3 == sep

/-- Rust `choice.rfind(" - ")`: the start position of the last
occurrence of the separator, if any. -/
def rfindSep (s : Str) : Option Nat := (List.range s.length).reverse.find? (sepAt s)

/-- The URL handed to the browser on accept (main.rs lines 190-195):
everything after the last `" - "`, or the whole display string when no
separator occurs. -/
def extractUrl (choice : Str) : Str :=
  match rfindSep choice with
  | some pos => choice.drop (pos + 3)
  | none => choice

/-- The key codes the dispatcher distinguishes (main.rs lines 165-209). -/
inductive Key where
  | char (c : Char)
  | backspace
  | up
  | down
  | esc
  | enter
  | other
deriving DecidableEq

/-- How one run of `main` ends, as observed from outside: whether it
returns `Ok`, whether the interactive terminal mode was restored before
returning, the calls made to the acceptance sink (`webbrowser::open`),
and the lines printed to stdout. -/
structure Exit where
  ok : Bool
  termReleased : Bool
  sink : List Str
  printed : List Str
deriving DecidableEq

/-- One dispatch of a key event (main.rs lines 165-209), run after the
frame's clamp. `openSucceeds` models whether `webbrowser::open`
succeeds on a given URL. `Sum.inl` continues the loop with the next
state; `Sum.inr` exits.

Traced from the source: Esc breaks out of the loop and the epilogue
(lines 212-215) restores the terminal and returns `Ok`. Enter with a
candidate under the cursor restores the terminal, calls the browser,
prints the URL on browser failure, and returns `Ok`. Enter with no
candidate (empty view) falls through the `if let` and hits the
`return Ok(())` on line 207 without restoring the terminal. -/
def stepKey (openSucceeds : Str → Bool) (cands : List Str) (st : SessionState) (k : Key) :
    SessionState ⊕ Exit :=
  let view := itemsForDisplay st.query cands
  let sel := clampSel view st.selected
  match k with
  | .char c => .inl ⟨st.query ++ [c], 0⟩
  | .backspace => .inl ⟨st.query.dropLast, 0⟩
  | .up => .inl ⟨st.query, if 0 < sel then sel - 1 else sel⟩
  | .down => .inl ⟨st.query, if sel + 1 < view.length then sel + 1 else sel⟩
  | .esc => .inr ⟨true, true, [], []⟩
  | .enter =>
    match view.get? sel with
    | some choice =>
      let url := extractUrl choice
      .inr ⟨true, true, [url], if openSucceeds url then [] else [url]⟩
    | none => .inr ⟨true, false, [], []⟩
  | .other => .inl ⟨st.query, sel⟩

/-- What one loop iteration observes: a key event, a poll timeout, or
an I/O error raised by `terminal.draw(..)?` or `event::poll(..)?`. -/
inductive LoopEvent where
  | key (k : Key)
  | timeout
  | drawError
  | pollError
deriving DecidableEq

/-- The render/event loop (main.rs lines 110-217) over a finite event
trace. A draw or poll error propagates through `?` out of `main`
without touching the terminal state; a timeout re-enters the loop with
the clamped selection; a key event goes through `stepKey`. `none`
means the trace ended with the loop still running. -/
def runLoop (openSucceeds : Str → Bool) (cands : List Str) :
    SessionState → List LoopEvent → Option Exit
  | _, [] => none
  | st, e :: es =>
    match e with
    | .drawError => some ⟨false, false, [], []⟩
    | .pollError => some ⟨false, false, [], []⟩
    | .timeout =>
      runLoop openSucceeds cands
        ⟨st.query, clampSel (itemsForDisplay st.query cands) st.selected⟩ es
    | .key k =>
      match stepKey openSucceeds cands st k with
      | .inl st' => runLoop openSucceeds cands st' es
      | .inr ex => some ex

/-- The loop's initial state: empty query, selection 0 (main.rs lines
104-105). -/
def initState : SessionState := ⟨[], 0⟩

/-- The session state after a sequence of key events, one loop
iteration per key; a terminal event ends the run with the state it was
dispatched in. -/
def runFrames (oS : Str → Bool) (cands : List Str) :
    SessionState → List Key → SessionState
  | st, [] => st
  | st, k :: ks =>
    match stepKey oS cands st k with
    | .inl st' => runFrames oS cands st' ks
    | .inr _ => st

/-- Modelled from the spec: descending-id order of the SQL clause
`ORDER BY id DESC` — executed by sqlite, whose code is not part of this
repository. -/
def idGe (a b : Url) : Prop := b.id ≤ a.id

instance : DecidableRel idGe := fun a b => by unfold idGe; infer_instance

instance : IsTotal Url idGe := by
  constructor
  intro a b
  rcases Int.le_total a.id b.id with h | h
  · exact Or.inr h
  · exact Or.inl h

instance : IsTrans Url idGe := by
  constructor
  intro a b c hab hbc
  exact Int.le_trans hbc hab

/-- Modelled from the spec: the result set of
`SELECT .. FROM urls ORDER BY id DESC LIMIT 200` (main.rs lines 49-51)
— the table's rows sorted by descending id, truncated to 200. The SQL
engine itself is not part of this repository. -/
def selectUrls (table : List Url) : List Url :=
  (List.insertionSort idGe table).take 200

/-- The candidate store (main.rs lines 81-90): display strings of the
selected rows, in selection order. -/
def buildDisplays (table : List Url) : List Str :=
  (selectUrls table).map display

/-! ## Helper lemmas -/

/-- The trimmed string is empty exactly when every character is
whitespace (Rust `s.trim().is_empty()` versus all-whitespace). -/
theorem trim_eq_nil_iff (s : Str) :
    trim s = [] ↔ s.all Char.isWhitespace = true := by
  unfold trim
  simp only [List.reverse_eq_nil_iff, List.dropWhile_eq_nil_iff, List.mem_reverse,
    List.all_eq_true]
  constructor
  · intro h a ha
    have hsplit : a ∈ List.takeWhile Char.isWhitespace s ++
        List.dropWhile Char.isWhitespace s := by
      rw [List.takeWhile_append_dropWhile]
      exact ha
    rcases List.mem_append.mp hsplit with h1 | h2
    · exact List.mem_takeWhile_imp h1
    · exact h a h2
  · intro h a ha
    exact h a ((List.dropWhile_sublist Char.isWhitespace).mem ha)

/-- Every entry of `matchList` passed the subsequence filter. -/
theorem matchList_subseq (q : Str) (cands : List Str) (p : (Nat × Str) × Nat)
    (hp : p ∈ matchList q cands) : subseqCI q p.1.2 = true := by
  unfold matchList at hp
  rcases List.mem_map.mp hp with ⟨x, hx, hfx⟩
  have hcond := (List.mem_filter.mp hx).2
  rw [← hfx]
  exact hcond

/-- A candidate that passes the subsequence filter appears in
`matchList` tagged with its index and score. -/
theorem matchList_of_mem (q : Str) (cands : List Str) (i : Nat) (s : Str)
    (hget : cands[i]? = some s) (hsub : subseqCI q s = true) :
    ((i, s), score q s) ∈ matchList q cands := by
  unfold matchList
  apply List.mem_map.mpr
  refine ⟨(i, s), List.mem_filter.mpr ⟨?_, hsub⟩, rfl⟩
  exact List.mem_enum_iff_getElem?.mpr hget

/-- Original indices in `matchList` are strictly increasing. -/
theorem matchList_pairwise_idx (q : Str) (cands : List Str) :
    List.Pairwise (fun a b : (Nat × Str) × Nat => a.1.1 < b.1.1) (matchList q cands) := by
  unfold matchList
  apply List.pairwise_map.mpr
  show List.Pairwise (fun a b : Nat × Str => a.1 < b.1) _
  apply List.Pairwise.filter
  have h1 : List.Pairwise (· < ·) (List.range cands.length) :=
    List.pairwise_lt_range cands.length
  rw [← List.enum_map_fst] at h1
  exact List.pairwise_map.mp h1

/-! ## C5: empty-query identity -/

/-- C5: for every candidate list of size N and every query that is empty
or all-whitespace, the matcher returns the first min(50, N) candidates
in original order (no scoring branch is taken). -/
theorem matcher_empty_query_identity (q : Str) (cands : List Str)
    (h : isWsStr q = true) :
    itemsForDisplay q cands = cands.take 50 ∧
      (itemsForDisplay q cands).length = min 50 cands.length := by
  constructor
  · simp [itemsForDisplay, h]
  · simp [itemsForDisplay, h, List.length_take]

/-- C5 witness: the empty-query identity at a concrete query and
candidate list. -/
theorem matcher_empty_query_identity_witness :
    itemsForDisplay [' '] [['a'], ['b']] = [['a'], ['b']].take 50 ∧
      (itemsForDisplay [' '] [['a'], ['b']]).length = min 50 [['a'], ['b']].length :=
  matcher_empty_query_identity [' '] [['a'], ['b']] (by decide)

/-! ## C4: display-string construction -/

/-- C4 counterexample: the code performs no newline replacement — a row
whose title holds an embedded newline yields a display string that
still holds that newline, so the claimed single-line guarantee fails. -/
theorem display_newline_cex :
    display ⟨1, ['u'], ['a', '\n', 'b'], 0, 0, 0, 0⟩ =
        ['a', '\n', 'b', ' ', '-', ' ', 'u'] ∧
      '\n' ∈ display ⟨1, ['u'], ['a', '\n', 'b'], 0, 0, 0, 0⟩ := by
  constructor
  · decide
  · decide

/-- C4 amended: the display string is the raw locator alone when the
label is empty or all-whitespace, and otherwise the trimmed label, the
separator " - ", and the locator; no newline replacement is performed —
the locator (with any characters it holds, newlines included) is kept
verbatim as a suffix of the display string. -/
theorem display_construction (u : Url) :
    (u.title.all Char.isWhitespace = true → display u = u.url) ∧
      (u.title.all Char.isWhitespace = false →
        display u = trim u.title ++ sep ++ u.url) ∧
      u.url.IsSuffix (display u) := by
  refine ⟨?_, ?_, ?_⟩
  · intro h
    rw [display, if_pos ((trim_eq_nil_iff u.title).mpr h)]
  · intro h
    rw [display, if_neg ?_]
    intro hc
    rw [(trim_eq_nil_iff u.title).mp hc] at h
    simp at h
  · by_cases h : trim u.title = []
    · rw [display, if_pos h]
    · rw [display, if_neg h]
      exact ⟨trim u.title ++ sep, by simp⟩

/-- How the dispatcher treats Enter when a candidate sits under the
cursor (shared helper): terminal restored, one browser-open call with
the extracted URL, a fallback print exactly when that call fails. -/
theorem stepKey_enter_eq (oS : Str → Bool) (cands : List Str) (st : SessionState)
    (choice : Str)
    (h : (itemsForDisplay st.query cands).get?
        (clampSel (itemsForDisplay st.query cands) st.selected) = some choice) :
    stepKey oS cands st Key.enter =
      Sum.inr ⟨true, true, [extractUrl choice],
        if oS (extractUrl choice) then [] else [extractUrl choice]⟩ := by
  unfold stepKey
  simp only [h]

/-! ## C1: accept on an empty ranked view -/

/-- C1: evaluating the dispatcher at a state whose ranked view is empty
(candidate "a", query "z" matches nothing) shows that an Enter event
exits the loop — it returns Ok without restoring the terminal — rather
than leaving the state unchanged and continuing. -/
theorem accept_on_empty_exits :
    itemsForDisplay ['z'] [['a']] = [] ∧
      stepKey (fun _ => true) [['a']] ⟨['z'], 0⟩ Key.enter =
        Sum.inr ⟨true, false, [], []⟩ := by
  constructor
  · decide
  · decide

/-! ## C2: acceptance sink argument -/

/-- C2 counterexample: accepting the display string "t - u" invokes the
sink with "u" — the URL extracted after the last " - " — not with the
stored display string itself. -/
theorem accept_sink_cex :
    stepKey (fun _ => true) [['t', ' ', '-', ' ', 'u']] ⟨[], 0⟩ Key.enter =
        Sum.inr ⟨true, true, [['u']], []⟩ ∧
      (['u'] : Str) ≠ ['t', ' ', '-', ' ', 'u'] := by
  constructor
  · decide
  · decide

/-- C2 amended: when an accept event terminates the session with a
candidate under the cursor, the acceptance sink (the browser open call)
is invoked exactly once, with the URL extracted from the display string
of the candidate at ranked_view[selection] — the substring after the
last " - " separator, or the whole display string when no separator
occurs. -/
theorem accept_sink_once (oS : Str → Bool) (cands : List Str) (st : SessionState)
    (choice : Str)
    (h : (itemsForDisplay st.query cands).get?
        (clampSel (itemsForDisplay st.query cands) st.selected) = some choice) :
    stepKey oS cands st Key.enter =
      Sum.inr ⟨true, true, [extractUrl choice],
        if oS (extractUrl choice) then [] else [extractUrl choice]⟩ :=
  stepKey_enter_eq oS cands st choice h

/-- C2 witness: the amended accept behaviour at a concrete session. -/
theorem accept_sink_once_witness :
    stepKey (fun _ => true) [['t', ' ', '-', ' ', 'u']] ⟨[], 0⟩ Key.enter =
      Sum.inr ⟨true, true, [extractUrl ['t', ' ', '-', ' ', 'u']],
        if (fun _ => true) (extractUrl ['t', ' ', '-', ' ', 'u']) then []
        else [extractUrl ['t', ' ', '-', ' ', 'u']]⟩ :=
  accept_sink_once (fun _ => true) [['t', ' ', '-', ' ', 'u']] ⟨[], 0⟩
    ['t', ' ', '-', ' ', 'u'] (by decide)

/-! ## C10: fallback print when the browser open fails -/

/-- C10: on accept with a non-empty ranked view, if opening the chosen
URL in the browser fails, the loop prints the extracted URL to stdout
and still returns Ok (with the terminal restored first). -/
theorem accept_open_failure_prints (oS : Str → Bool) (cands : List Str)
    (st : SessionState) (choice : Str)
    (h : (itemsForDisplay st.query cands).get?
        (clampSel (itemsForDisplay st.query cands) st.selected) = some choice)
    (hfail : oS (extractUrl choice) = false) :
    stepKey oS cands st Key.enter =
      Sum.inr ⟨true, true, [extractUrl choice], [extractUrl choice]⟩ := by
  rw [stepKey_enter_eq oS cands st choice h, hfail]
  rfl

/-- C10 witness: the fallback print at a concrete session whose browser
open always fails. -/
theorem accept_open_failure_prints_witness :
    stepKey (fun _ => false) [['u']] ⟨[], 0⟩ Key.enter =
      Sum.inr ⟨true, true, [extractUrl ['u']], [extractUrl ['u']]⟩ :=
  accept_open_failure_prints (fun _ => false) [['u']] ⟨[], 0⟩ ['u'] (by decide) rfl

/-! ## C3: terminal-resource release on exit paths -/

/-- C3 counterexample: an I/O error raised while drawing exits the loop
with an error and the interactive terminal mode still held — the
release obligation is not met on that exit path. -/
theorem terminal_release_cex :
    runLoop (fun _ => true) [['a']] initState [LoopEvent.drawError] =
      some ⟨false, false, [], []⟩ := by
  decide

/-- C3 amended: the terminal mode is released exactly once on a normal
accept with a candidate under the cursor and on explicit cancel, but it
is NOT released when an I/O error is raised while drawing or polling
(the error propagates out of the loop with the terminal mode still
held), nor on the accept-with-an-empty-view exit. -/
theorem terminal_release_paths (oS : Str → Bool) (cands : List Str)
    (st : SessionState) (es : List LoopEvent) :
    (stepKey oS cands st Key.esc = Sum.inr ⟨true, true, [], []⟩) ∧
      (∀ choice, (itemsForDisplay st.query cands).get?
          (clampSel (itemsForDisplay st.query cands) st.selected) = some choice →
        ∃ printed, stepKey oS cands st Key.enter =
          Sum.inr ⟨true, true, [extractUrl choice], printed⟩) ∧
      ((itemsForDisplay st.query cands).get?
          (clampSel (itemsForDisplay st.query cands) st.selected) = none →
        stepKey oS cands st Key.enter = Sum.inr ⟨true, false, [], []⟩) ∧
      (runLoop oS cands st (LoopEvent.drawError :: es) = some ⟨false, false, [], []⟩) ∧
      (runLoop oS cands st (LoopEvent.pollError :: es) = some ⟨false, false, [], []⟩) := by
  refine ⟨rfl, ?_, ?_, rfl, rfl⟩
  · intro choice h
    exact ⟨_, stepKey_enter_eq oS cands st choice h⟩
  · intro h
    unfold stepKey
    simp only [h]

/-! ## C7: selection clamping -/

/-- The clamp's bounds, for any view and any stored selection. -/
theorem clampSel_bounds (view : List Str) (sel : Nat) :
    (view = [] → clampSel view sel = 0) ∧
      (view ≠ [] → clampSel view sel < view.length) := by
  constructor
  · intro h
    simp [clampSel, h]
  · intro h
    have hlen : 0 < view.length := List.length_pos.mpr h
    unfold clampSel
    split
    · omega
    · split
      · omega
      · omega

/-- C7: after any sequence of key events from the initial state, the
selection rendered by the next frame — the stored selection passed
through the clamp against that frame's ranked view — is 0 when the view
is empty and lies strictly below the view's length otherwise. -/
theorem selection_clamped (oS : Str → Bool) (cands : List Str) (ks : List Key) :
    (itemsForDisplay (runFrames oS cands initState ks).query cands = [] →
      clampSel (itemsForDisplay (runFrames oS cands initState ks).query cands)
        (runFrames oS cands initState ks).selected = 0) ∧
      (itemsForDisplay (runFrames oS cands initState ks).query cands ≠ [] →
        clampSel (itemsForDisplay (runFrames oS cands initState ks).query cands)
          (runFrames oS cands initState ks).selected <
          (itemsForDisplay (runFrames oS cands initState ks).query cands).length) :=
  clampSel_bounds _ _

/-! ## C8: determinism and tie order -/

/-- C8: the matcher is a pure function — two evaluations at identical
inputs are identical — and in the ranked result any two entries with
equal scores appear in ascending original-index order. -/
theorem matcher_deterministic_ties (q : Str) (cands : List Str) :
    itemsForDisplay q cands = itemsForDisplay q cands ∧
      List.Pairwise (fun a b : (Nat × Str) × Nat => a.2 = b.2 → a.1.1 < b.1.1)
        (rankedPairs q cands) := by
  refine ⟨rfl, ?_⟩
  have hsorted : List.Sorted rank (List.insertionSort rank (matchList q cands)) :=
    List.sorted_insertionSort rank (matchList q cands)
  have hperm : List.Perm (List.insertionSort rank (matchList q cands))
      (matchList q cands) :=
    List.perm_insertionSort rank (matchList q cands)
  have hne : List.Pairwise (fun a b : (Nat × Str) × Nat => a.1.1 ≠ b.1.1)
      (matchList q cands) :=
    (matchList_pairwise_idx q cands).imp Nat.ne_of_lt
  have hne' : List.Pairwise (fun a b : (Nat × Str) × Nat => a.1.1 ≠ b.1.1)
      (List.insertionSort rank (matchList q cands)) :=
    (hperm.pairwise_iff Ne.symm).mpr hne
  have hcomb := hsorted.and hne'
  have hgoal : List.Pairwise (fun a b : (Nat × Str) × Nat => a.2 = b.2 → a.1.1 < b.1.1)
      (List.insertionSort rank (matchList q cands)) := by
    refine hcomb.imp ?_
    rintro a b ⟨hrank, hneq⟩ heq
    rcases hrank with hlt | ⟨_, hle⟩
    · exact absurd heq (Nat.ne_of_gt hlt)
    · exact Nat.lt_of_le_of_ne hle hneq
  exact hgoal.sublist (List.take_sublist 50 _)

/-! ## C6: subsequence soundness -/

/-- C6 counterexample: with 51 distinct candidates all matching the
query "z", the ranked view keeps only the top 50, so the candidate
"zs" is excluded from the view although the query occurs in it as a
case-insensitive subsequence — the exclusion half of the claim fails. -/
theorem matcher_subsequence_cex :
    isWsStr ['z'] = false ∧
      ['z', 's'] ∈ (List.range 51).map (fun i => ['z', Char.ofNat (65 + i)]) ∧
      subseqCI ['z'] ['z', 's'] = true ∧
      ['z', 's'] ∉ itemsForDisplay ['z']
        ((List.range 51).map (fun i => ['z', Char.ofNat (65 + i)])) := by
  refine ⟨by decide, by decide, by decide, by decide⟩

/-- C6 amended: for every non-empty query, every candidate in the
ranked view contains the query as a case-insensitive ordered
subsequence; and a candidate that satisfies the subsequence test yet is
excluded from the view can only have been cut by the top-50
truncation — its absence forces the view to hold exactly 50 entries. -/
theorem matcher_subsequence_soundness (q : Str) (cands : List Str)
    (hq : isWsStr q = false) :
    (∀ s ∈ itemsForDisplay q cands, subseqCI q s = true) ∧
      (∀ s ∈ cands, subseqCI q s = true → s ∉ itemsForDisplay q cands →
        (itemsForDisplay q cands).length = 50) := by
  have hview : itemsForDisplay q cands =
      (rankedPairs q cands).map (fun p => p.1.2) := by
    simp [itemsForDisplay, hq]
  constructor
  · intro s hs
    rw [hview] at hs
    rcases List.mem_map.mp hs with ⟨p, hp, hps⟩
    have hp' : p ∈ List.insertionSort rank (matchList q cands) :=
      List.mem_of_mem_take hp
    have hp'' : p ∈ matchList q cands :=
      (List.perm_insertionSort rank (matchList q cands)).mem_iff.mp hp'
    rw [← hps]
    exact matchList_subseq q cands p hp''
  · intro s hs hsub hnot
    rcases List.mem_iff_getElem?.mp hs with ⟨i, hi⟩
    have hm : ((i, s), score q s) ∈ matchList q cands :=
      matchList_of_mem q cands i s hi hsub
    have hm' : ((i, s), score q s) ∈ List.insertionSort rank (matchList q cands) :=
      (List.perm_insertionSort rank (matchList q cands)).mem_iff.mpr hm
    by_cases hlen : (List.insertionSort rank (matchList q cands)).length ≤ 50
    · exfalso
      apply hnot
      rw [hview]
      unfold rankedPairs
      rw [List.take_of_length_le hlen]
      exact List.mem_map.mpr ⟨((i, s), score q s), hm', rfl⟩
    · rw [hview]
      unfold rankedPairs
      rw [List.length_map, List.length_take]
      omega

/-- C6 witness: the amended soundness at a concrete query and
candidate list. -/
theorem matcher_subsequence_soundness_witness :
    (∀ s ∈ itemsForDisplay ['a'] [['a'], ['b']], subseqCI ['a'] s = true) ∧
      (∀ s ∈ [['a'], ['b']], subseqCI ['a'] s = true →
        s ∉ itemsForDisplay ['a'] [['a'], ['b']] →
        (itemsForDisplay ['a'] [['a'], ['b']]).length = 50) :=
  matcher_subsequence_soundness ['a'] [['a'], ['b']] (by decide)

/-! ## C9: the candidate store -/

/-- C9: the candidate store holds at most 200 display strings, derived
from the rows with the greatest ids in descending id order (every
dropped row's id is at most every kept row's id), and every kept row
comes from the source table. (The store is a pure value, never written
after construction.) -/
theorem candidate_store_bound (table : List Url) :
    (buildDisplays table).length ≤ 200 ∧
      List.Sorted idGe (selectUrls table) ∧
      (∀ u ∈ selectUrls table, ∀ v ∈ (List.insertionSort idGe table).drop 200,
        v.id ≤ u.id) ∧
      (∀ u ∈ selectUrls table, u ∈ table) := by
  have hsorted : List.Sorted idGe (List.insertionSort idGe table) :=
    List.sorted_insertionSort idGe table
  refine ⟨?_, ?_, ?_, ?_⟩
  · simp only [buildDisplays, selectUrls, List.length_map, List.length_take]
    omega
  · exact hsorted.sublist (List.take_sublist 200 _)
  · intro u hu v hv
    exact hsorted.rel_of_mem_take_of_mem_drop hu hv
  · intro u hu
    have : u ∈ List.insertionSort idGe table := List.mem_of_mem_take hu
    exact (List.perm_insertionSort idGe table).mem_iff.mp this

end Fuhl
